import Mathlib

/-
Shallow embedding of the weather-chart application (src/app.js).

The two stateful components are translated as explicit state passing:
the LRU dataset cache of DataManager (a JS Map modelled as an
association list in insertion order, plus the accessHistory recency
list), and the viewport state of ChartRenderer (startIndex,
visibleCount, selectedIndex).  JS numbers that the code keeps as
continuous values (startIndex, visibleCount, zoom amounts, pixel
deltas, temperatures) are modelled as rationals; floating-point
rounding is not modelled.
-/

namespace WeatherChart

/-- Cache keys are the strings produced by DataManager.getKey. -/
abbrev Key := String

/-- Dataset wire shape: station, year, unit and the list of
[dateString, min, max] day triples. -/
structure Dataset where
  station : String
  year : Nat
  unit : String
  days : List (String × ℚ × ℚ)
deriving DecidableEq

/-- DataManager.getKey: the template string stationId-year. -/
def getKey (stationId : String) (year : Nat) : Key :=
  stationId ++ "-" ++ toString year

/-- JS Map.has over the association-list model. -/
def mapHas : List (Key × Dataset) → Key → Bool
  | [], _ => false
  | (k, _) :: rest, key => if k = key then true else mapHas rest key

/-- JS Map.get over the association-list model. -/
def mapGet : List (Key × Dataset) → Key → Option Dataset
  | [], _ => none
  | (k, v) :: rest, key => if k = key then some v else mapGet rest key

/-- JS Map.set: update the value in place when the key exists,
otherwise append the new entry at the end (insertion order). -/
def mapSet : List (Key × Dataset) → Key → Dataset → List (Key × Dataset)
  | [], key, v => [(key, v)]
  | (k, w) :: rest, key, v =>
      if k = key then (k, v) :: rest else (k, w) :: mapSet rest key v

/-- JS Map.delete: remove the (unique) entry with the given key. -/
def mapDelete : List (Key × Dataset) → Key → List (Key × Dataset)
  | [], _ => []
  | (k, w) :: rest, key =>
      if k = key then rest else (k, w) :: mapDelete rest key

/-- MAX_CACHE_SIZE constant from app.js. -/
def MAX_CACHE_SIZE : Nat := 3

/-- DataManager state: the cache Map and the LRU accessHistory list
(least recently used at the head, most recently used at the tail). -/
structure DataManager where
  cache : List (Key × Dataset)
  accessHistory : List Key
deriving DecidableEq

/-- DataManager constructor: empty cache, empty access history. -/
def DataManager.init : DataManager := ⟨[], []⟩

/-- DataManager.updateAccess: remove the key from accessHistory and
push it at the tail (most recently used). -/
def updateAccess (s : DataManager) (key : Key) : DataManager :=
  { s with accessHistory := s.accessHistory.filter (fun k => k != key) ++ [key] }

/-- DataManager.addToCache: store the entry, refresh its recency, and
if the cache size now exceeds MAX_CACHE_SIZE, shift the head of
accessHistory (the least recently used key) and delete it from the
cache when present. -/
def addToCache (s : DataManager) (key : Key) (data : Dataset) : DataManager :=
  let s1 := updateAccess { s with cache := mapSet s.cache key data } key
  if MAX_CACHE_SIZE < s1.cache.length then
    match s1.accessHistory with
    | [] => s1
    | oldest :: rest =>
        if mapHas s1.cache oldest then
          { cache := mapDelete s1.cache oldest, accessHistory := rest }
        else
          { cache := s1.cache, accessHistory := rest }
  else s1

/-- DataManager.fetchData.  On a hit it refreshes the recency rank and
returns the stored dataset.  On a miss the external fetch is modelled
by fetchResult (some data when the fetch resolves with an ok
response, none when it rejects or is not ok); a successful miss is
stored through addToCache, a failed miss falls back to mock data when
running under the file: protocol (fileMode; the mock dataset produced
by getMockData is an oracle parameter because it is randomized) and
otherwise rethrows, modelled by returning none. -/
def fetchData (s : DataManager) (stationId : String) (year : Nat)
    (fetchResult : Option Dataset) (fileMode : Bool) (mock : Dataset) :
    Option Dataset × DataManager :=
  let key := getKey stationId year
  if mapHas s.cache key then
    (mapGet s.cache key, updateAccess s key)
  else
    match fetchResult with
    | some data => (some data, addToCache s key data)
    | none => if fileMode then (some mock, s) else (none, s)

/-- ChartRenderer view state: startIndex and visibleCount are kept
continuous (rationals); selectedIndex is the optional selected day
index (undefined in the constructor, modelled as none). -/
structure ChartRenderer where
  startIndex : ℚ
  visibleCount : ℚ
  selectedIndex : Option Nat
deriving DecidableEq

/-- ChartRenderer minVisible constant (minimum two weeks). -/
def minVisible : ℚ := 14

/-- ChartRenderer constructor view state: startIndex 0, visibleCount
365, no selection. -/
def ChartRenderer.init : ChartRenderer := ⟨0, 365, none⟩

/-- ChartRenderer.clampWindow, for a loaded dataset of length total:
cap visibleCount at total, floor startIndex at 0, then pull
startIndex back when the right edge exceeds total. -/
def clampWindow (total : ℚ) (v : ChartRenderer) : ChartRenderer :=
  let c := if total < v.visibleCount then total else v.visibleCount
  let s0 := if v.startIndex < 0 then 0 else v.startIndex
  let s := if total < s0 + c then total - c else s0
  { v with startIndex := s, visibleCount := c }

/-- ChartRenderer.zoom, for a loaded dataset of length total: scale
visibleCount by (1 - amount) bounded to [minVisible, total], recompute
startIndex from the old window center and the new count, then clamp. -/
def zoom (total : ℚ) (amount : ℚ) (v : ChartRenderer) : ChartRenderer :=
  let newCount := v.visibleCount * (1 - amount)
  let centerRatio : ℚ := 0.5
  let currentCenter := v.startIndex + v.visibleCount * centerRatio
  let c := max minVisible (min total newCount)
  let s := currentCenter - c * centerRatio
  clampWindow total { v with startIndex := s, visibleCount := c }

/-- ChartRenderer.drag on the active-drag path (isDragging set and a
layout available): the pixel delta dx over the last rendered barWidth
gives the bar count subtracted from startIndex, then clamp. -/
def drag (total dx barWidth : ℚ) (v : ChartRenderer) : ChartRenderer :=
  clampWindow total { v with startIndex := v.startIndex - dx / barWidth }

/-- ChartRenderer.setData for a dataset with days present: reset
startIndex to 0 and visibleCount to the dataset length.  The
selectedIndex field is not touched by setData in the source. -/
def setData (total : ℚ) (v : ChartRenderer) : ChartRenderer :=
  { v with startIndex := 0, visibleCount := total }

/-- ChartRenderer.selectDay: record the selected index. -/
def selectDay (index : Nat) (v : ChartRenderer) : ChartRenderer :=
  { v with selectedIndex := some index }

/-- A pan or zoom user operation on the viewport. -/
inductive Op where
  | pan (dx barWidth : ℚ)
  | zoomBy (amount : ℚ)

/-- Apply one pan or zoom operation (each ends with the clamp step). -/
def applyOp (total : ℚ) (op : Op) (v : ChartRenderer) : ChartRenderer :=
  match op with
  | .pan dx barWidth => drag total dx barWidth v
  | .zoomBy amount => zoom total amount v

/-- Apply a finite sequence of pan and zoom operations in order. -/
def applyOps (total : ℚ) (ops : List Op) (v : ChartRenderer) : ChartRenderer :=
  ops.foldl (fun w op => applyOp total op w) v

/-- The section-3 viewport invariants for a dataset of length total. -/
def viewInv (total : ℚ) (v : ChartRenderer) : Prop :=
  0 ≤ v.startIndex ∧ v.startIndex + v.visibleCount ≤ total ∧
    minVisible ≤ v.visibleCount ∧ v.visibleCount ≤ total

instance (total : ℚ) (v : ChartRenderer) : Decidable (viewInv total v) := by
  unfold viewInv; infer_instance

/-- The three trend colors used by ChartRenderer.draw for a day mark:
neutral is the '#d63384' default, cold '#1f78b4', warm '#e31a1c'. -/
inductive TrendColor where
  | neutral
  | cold
  | warm
deriving DecidableEq

/-- Midpoint temperature (min+max)/2 of one day's (min, max) pair. -/
def midpoint (d : ℚ × ℚ) : ℚ := (d.1 + d.2) / 2

/-- The per-day color loop of ChartRenderer.draw: i is the position in
the visible slice, prevMid the running previous midpoint (seeded with
0), start the floored window start.  The default neutral color is kept
only when i = 0 and start = 0; otherwise the day is colored by
comparing its midpoint with prevMid. -/
def markColorsAux (start : Nat) : Nat → ℚ → List (ℚ × ℚ) → List TrendColor
  | _, _, [] => []
  | i, prevMid, d :: rest =>
      let tMid := midpoint d
      let color : TrendColor :=
        if 0 < i ∨ 0 < start then
          (if tMid < prevMid then .cold else .warm)
        else .neutral
      color :: markColorsAux start (i + 1) tMid rest

/-- Colors assigned to the visible slice viewData by
ChartRenderer.draw, with slice start index start: the loop starts at
i = 0 with prevMid = 0. -/
def markColors (start : Nat) (viewData : List (ℚ × ℚ)) : List TrendColor :=
  markColorsAux start 0 0 viewData

/-- Trend colors relative to a given previous midpoint, one per day,
each day then becoming the predecessor of the next. -/
def colorsFrom (prev : ℚ) : List (ℚ × ℚ) → List TrendColor
  | [] => []
  | d :: rest => (if midpoint d < prev then .cold else .warm) :: colorsFrom (midpoint d) rest

/-- Modelled from the amended claim: the first day of the slice is
neutral exactly when the window starts at day 0, and otherwise is
colored against the seed midpoint 0; every later day is colored
against the previous visible day's midpoint. -/
def trendColorRule (start : Nat) : List (ℚ × ℚ) → List TrendColor
  | [] => []
  | d :: rest =>
      (if start = 0 then .neutral
       else if midpoint d < 0 then .cold else .warm) :: colorsFrom (midpoint d) rest

/-- One call to DataManager.fetchData, with the outcome of the
external fetch and the environment flags it consults. -/
structure FetchCall where
  stationId : String
  year : Nat
  fetchResult : Option Dataset
  fileMode : Bool
  mock : Dataset

/-- Run a sequence of fetchData calls against a DataManager state,
keeping the final state. -/
def runCalls (calls : List FetchCall) (s : DataManager) : DataManager :=
  calls.foldl
    (fun st c => (fetchData st c.stationId c.year c.fetchResult c.fileMode c.mock).2) s

/-- The claimed cache bookkeeping invariant: accessHistory holds each
key at most once, its keys are exactly the keys stored in the cache
map, and the cache holds at most MAX_CACHE_SIZE entries. -/
def cacheInv (s : DataManager) : Prop :=
  s.accessHistory.Nodup ∧
    (∀ k, k ∈ s.accessHistory ↔ k ∈ s.cache.map Prod.fst) ∧
    s.cache.length ≤ MAX_CACHE_SIZE

/-- Strengthened invariant used for preservation: cacheInv together
with distinctness of the keys stored in the cache map. -/
def DMInv (s : DataManager) : Prop :=
  cacheInv s ∧ (s.cache.map Prod.fst).Nodup

/-- Representative dataset payload used in the concrete scenarios. -/
def d0 : Dataset := ⟨"108", 2020, "celsius", []⟩

/-- First key inserted in the concrete LRU scenarios. -/
def key1 : Key := getKey "108" 2020

/-- Second key inserted in the concrete LRU scenarios. -/
def key2 : Key := getKey "108" 2021

/-- Third key inserted in the concrete LRU scenarios. -/
def key3 : Key := getKey "108" 2022

/-- Fourth key inserted in the concrete LRU scenarios. -/
def key4 : Key := getKey "108" 2023

/-- Cache state after inserting key1 into the empty cache. -/
def lru1 : DataManager := addToCache DataManager.init key1 d0

/-- Cache state after inserting key1 and key2. -/
def lru2 : DataManager := addToCache lru1 key2 d0

/-- Cache state after inserting key1, key2 and key3 (cache full). -/
def lru3 : DataManager := addToCache lru2 key3 d0

/-- Cache state after a fourth distinct insert with no intervening
access: key1, the least recently used key, must be evicted. -/
def lru4 : DataManager := addToCache lru3 key4 d0

/-- Cache state after a hit on key1 (recency refreshed) while full. -/
def lruHit : DataManager := updateAccess lru3 key1

/-- Cache state after the fourth insert following the hit on key1:
now key2 is the least recently used key and must be evicted. -/
def lru4Hit : DataManager := addToCache lruHit key4 d0

section MapLemmas

/-- Map membership agrees with membership in the key list. -/
theorem mapHas_iff_mem_keys (m : List (Key × Dataset)) (k : Key) :
    mapHas m k = true ↔ k ∈ m.map Prod.fst := by
  induction m with
  | nil => simp [mapHas]
  | cons p rest ih =>
      obtain ⟨a, b⟩ := p
      by_cases h : a = k
      · subst h
        simp [mapHas]
      · simp [mapHas, h, ih, Ne.symm h]

/-- Setting a fresh key appends the entry at the tail of the map. -/
theorem mapSet_of_not_has (m : List (Key × Dataset)) (key : Key) (v : Dataset)
    (h : mapHas m key = false) : mapSet m key v = m ++ [(key, v)] := by
  induction m with
  | nil => rfl
  | cons p rest ih =>
      obtain ⟨a, b⟩ := p
      simp only [mapHas] at h
      by_cases ha : a = key
      · simp [ha] at h
      · simp only [mapSet, if_neg ha, List.cons_append, List.cons.injEq, true_and]
        exact ih (by simpa [ha] using h)

/-- Map.set never removes a key that was present. -/
theorem mapHas_mapSet_of_has (m : List (Key × Dataset)) (key k : Key) (v : Dataset)
    (h : mapHas m k = true) : mapHas (mapSet m key v) k = true := by
  induction m with
  | nil => simp [mapHas] at h
  | cons p rest ih =>
      obtain ⟨a, b⟩ := p
      simp only [mapHas] at h
      simp only [mapSet]
      by_cases hakey : a = key
      · rw [if_pos hakey]
        simp only [mapHas]
        exact h
      · rw [if_neg hakey]
        simp only [mapHas]
        by_cases hak : a = k
        · rw [if_pos hak]
        · rw [if_neg hak] at h ⊢
          exact ih h

/-- Map.delete removes no key other than the deleted one. -/
theorem mapHas_mapDelete_of_ne (m : List (Key × Dataset)) (o k : Key)
    (h : k ≠ o) : mapHas (mapDelete m o) k = mapHas m k := by
  induction m with
  | nil => rfl
  | cons p rest ih =>
      obtain ⟨a, b⟩ := p
      by_cases hao : a = o
      · subst hao
        simp [mapDelete, mapHas, Ne.symm h]
      · simp only [mapDelete, if_neg hao, mapHas]
        by_cases hak : a = k <;> simp [hak, ih]

/-- The key list of Map.delete is the erasure of the deleted key. -/
theorem mapDelete_keys (m : List (Key × Dataset)) (o : Key) :
    (mapDelete m o).map Prod.fst = (m.map Prod.fst).erase o := by
  induction m with
  | nil => rfl
  | cons p rest ih =>
      obtain ⟨a, b⟩ := p
      by_cases hao : a = o
      · subst hao
        simp [mapDelete, List.erase_cons]
      · simp [mapDelete, List.erase_cons, hao, ih]

end MapLemmas

section CacheLemmas

/-- updateAccess leaves the cache map untouched. -/
theorem updateAccess_cache (s : DataManager) (key : Key) :
    (updateAccess s key).cache = s.cache := rfl

/-- Membership in the recency list after updateAccess. -/
theorem mem_updateAccess (s : DataManager) (key k : Key) :
    k ∈ (updateAccess s key).accessHistory ↔ k = key ∨ k ∈ s.accessHistory := by
  simp only [updateAccess, List.mem_append, List.mem_filter, bne_iff_ne, ne_eq,
    List.mem_singleton]
  by_cases hkk : k = key
  · simp [hkk]
  · simp [hkk]

/-- updateAccess keeps the recency list duplicate-free. -/
theorem nodup_updateAccess (s : DataManager) (key : Key)
    (h : s.accessHistory.Nodup) : (updateAccess s key).accessHistory.Nodup := by
  simp only [updateAccess]
  refine List.Nodup.append (h.filter _) (List.nodup_singleton key) ?_
  intro a ha hb
  simp only [List.mem_filter, bne_iff_ne, ne_eq] at ha
  simp only [List.mem_singleton] at hb
  exact ha.2 hb

/-- Filtering a key out of a list that does not contain it is the
identity. -/
theorem filter_ne_of_not_mem (l : List Key) (key : Key) (h : key ∉ l) :
    l.filter (fun k => k != key) = l := by
  refine List.filter_eq_self.mpr ?_
  intro a ha
  rw [bne_iff_ne]
  exact fun hak => h (hak ▸ ha)

/-- addToCache below capacity: nothing is evicted, the new entry is
stored and pushed most recently used. -/
theorem addToCache_of_le (s : DataManager) (key : Key) (data : Dataset)
    (h : (mapSet s.cache key data).length ≤ MAX_CACHE_SIZE) :
    addToCache s key data =
      ⟨mapSet s.cache key data,
        s.accessHistory.filter (fun k => k != key) ++ [key]⟩ := by
  simp only [addToCache, updateAccess]
  rw [if_neg (not_lt.mpr h)]

/-- addToCache above capacity with the evicted head present in the
map: the head of the refreshed recency list is removed from both. -/
theorem addToCache_of_gt (s : DataManager) (key : Key) (data : Dataset)
    (oldest : Key) (t : List Key)
    (hH : s.accessHistory.filter (fun k => k != key) ++ [key] = oldest :: t)
    (hbig : MAX_CACHE_SIZE < (mapSet s.cache key data).length)
    (hhas : mapHas (mapSet s.cache key data) oldest = true) :
    addToCache s key data = ⟨mapDelete (mapSet s.cache key data) oldest, t⟩ := by
  simp only [addToCache, updateAccess]
  rw [if_pos hbig, hH]
  simp [hhas]

/-- addToCache above capacity with the evicted head absent from the
map: the head is only dropped from the recency list. -/
theorem addToCache_of_gt_not_has (s : DataManager) (key : Key) (data : Dataset)
    (oldest : Key) (t : List Key)
    (hH : s.accessHistory.filter (fun k => k != key) ++ [key] = oldest :: t)
    (hbig : MAX_CACHE_SIZE < (mapSet s.cache key data).length)
    (hnot : mapHas (mapSet s.cache key data) oldest = false) :
    addToCache s key data = ⟨mapSet s.cache key data, t⟩ := by
  simp only [addToCache, updateAccess]
  rw [if_pos hbig, hH]
  simp [hnot]

/-- A key evicted by addToCache is necessarily the head of the
refreshed recency list. -/
theorem evicted_eq_head (s : DataManager) (key : Key) (data : Dataset) (k : Key)
    (hbefore : mapHas s.cache k = true)
    (hafter : mapHas (addToCache s key data).cache k = false) :
    some k = (s.accessHistory.filter (fun kk => kk != key) ++ [key]).head? := by
  have hkeep := mapHas_mapSet_of_has s.cache key k data hbefore
  by_cases hbig : MAX_CACHE_SIZE < (mapSet s.cache key data).length
  · rcases hh : s.accessHistory.filter (fun kk => kk != key) ++ [key] with _ | ⟨oldest, t⟩
    · exact absurd hh (by simp)
    · by_cases hold : mapHas (mapSet s.cache key data) oldest = true
      · rw [addToCache_of_gt s key data oldest t hh hbig hold] at hafter
        by_cases hko : k = oldest
        · rw [hko]
          rfl
        · rw [mapHas_mapDelete_of_ne _ _ _ hko, hkeep] at hafter
          cases hafter
      · rw [addToCache_of_gt_not_has s key data oldest t hh hbig
          (by simpa using hold)] at hafter
        rw [hkeep] at hafter
        cases hafter
  · rw [addToCache_of_le s key data (not_lt.mp hbig)] at hafter
    rw [hkeep] at hafter
    cases hafter

/-- A hit refresh preserves the strengthened cache invariant. -/
theorem DMInv_updateAccess_of_has (s : DataManager) (key : Key)
    (hkey : mapHas s.cache key = true) (h : DMInv s) :
    DMInv (updateAccess s key) := by
  obtain ⟨⟨hnd, hiff, hlen⟩, hknd⟩ := h
  refine ⟨⟨nodup_updateAccess s key hnd, ?_, ?_⟩, ?_⟩
  · intro k
    rw [mem_updateAccess, updateAccess_cache]
    constructor
    · rintro (rfl | hk)
      · exact (mapHas_iff_mem_keys _ _).mp hkey
      · exact (hiff k).mp hk
    · intro hk
      exact Or.inr ((hiff k).mpr hk)
  · rw [updateAccess_cache]
    exact hlen
  · rw [updateAccess_cache]
    exact hknd

/-- Inserting a fresh key through addToCache preserves the
strengthened cache invariant. -/
theorem DMInv_addToCache_of_not_has (s : DataManager) (key : Key) (data : Dataset)
    (hkey : mapHas s.cache key = false) (h : DMInv s) :
    DMInv (addToCache s key data) := by
  obtain ⟨⟨hnd, hiff, hlen⟩, hknd⟩ := h
  have hknot : key ∉ s.cache.map Prod.fst := by
    intro hk
    rw [← mapHas_iff_mem_keys, hkey] at hk
    cases hk
  have hkH : key ∉ s.accessHistory := fun hk => hknot ((hiff key).mp hk)
  have hset : mapSet s.cache key data = s.cache ++ [(key, data)] :=
    mapSet_of_not_has _ _ _ hkey
  have hkeys : (mapSet s.cache key data).map Prod.fst = s.cache.map Prod.fst ++ [key] := by
    rw [hset]
    simp
  have hfilter : s.accessHistory.filter (fun kk => kk != key) = s.accessHistory :=
    filter_ne_of_not_mem _ _ hkH
  have hlen1 : (mapSet s.cache key data).length = s.cache.length + 1 := by
    rw [hset]
    simp
  have hkeys1nd : ((mapSet s.cache key data).map Prod.fst).Nodup := by
    rw [hkeys]
    simp [List.nodup_append, hknd, hknot]
  by_cases hbig : MAX_CACHE_SIZE < (mapSet s.cache key data).length
  · rcases hHnil : s.accessHistory with _ | ⟨h0, t⟩
    · exfalso
      have hke : s.cache.map Prod.fst = [] := by
        by_contra hne
        obtain ⟨x, hx⟩ := List.exists_mem_of_ne_nil _ hne
        have := (hiff x).mpr hx
        rw [hHnil] at this
        cases this
      have hl0 : s.cache.length = 0 := by
        simpa using congrArg List.length hke
      rw [hlen1, hl0] at hbig
      norm_num [MAX_CACHE_SIZE] at hbig
    · have hH : s.accessHistory.filter (fun kk => kk != key) ++ [key]
          = h0 :: (t ++ [key]) := by
        rw [hfilter, hHnil]
        rfl
      have hh0mem : h0 ∈ s.accessHistory := by
        rw [hHnil]
        simp
      have hh0keys : h0 ∈ s.cache.map Prod.fst := (hiff h0).mp hh0mem
      have hh0has : mapHas (mapSet s.cache key data) h0 = true :=
        mapHas_mapSet_of_has _ _ _ _ ((mapHas_iff_mem_keys _ _).mpr hh0keys)
      have hh0keys1 : h0 ∈ (mapSet s.cache key data).map Prod.fst := by
        rw [hkeys]
        exact List.mem_append_left _ hh0keys
      rw [addToCache_of_gt s key data h0 (t ++ [key]) hH hbig hh0has]
      have hndH : (h0 :: t).Nodup := by
        rw [← hHnil]
        exact hnd
      have hh0t : h0 ∉ t := (List.nodup_cons.mp hndH).1
      have htnd : t.Nodup := (List.nodup_cons.mp hndH).2
      have hkt : key ∉ t := fun hk => hkH (by rw [hHnil]; exact List.mem_cons_of_mem h0 hk)
      have hkh0 : key ≠ h0 := fun hk => hkH (by rw [hHnil, hk]; exact List.mem_cons_self h0 t)
      refine ⟨⟨?_, ?_, ?_⟩, ?_⟩
      · simp only [List.nodup_append, List.nodup_singleton, true_and]
        refine ⟨htnd, ?_⟩
        intro a ha hb
        rw [List.mem_singleton] at hb
        exact hkt (hb ▸ ha)
      · intro k
        rw [mapDelete_keys, hkeys1nd.mem_erase_iff, hkeys]
        simp only [List.mem_append, List.mem_singleton]
        constructor
        · rintro (hk | rfl)
          · have hkh : k ∈ s.accessHistory := by
              rw [hHnil]
              exact List.mem_cons_of_mem h0 hk
            refine ⟨fun hk0 => hh0t (hk0 ▸ hk), Or.inl ((hiff k).mp hkh)⟩
          · exact ⟨hkh0, Or.inr rfl⟩
        · rintro ⟨hne, hk | rfl⟩
          · have hkh : k ∈ s.accessHistory := (hiff k).mpr hk
            rw [hHnil, List.mem_cons] at hkh
            rcases hkh with rfl | hkt2
            · exact absurd rfl hne
            · exact Or.inl hkt2
          · exact Or.inr rfl
      · have hlend : (mapDelete (mapSet s.cache key data) h0).length
            = (mapSet s.cache key data).length - 1 := by
          have h1 := congrArg List.length (mapDelete_keys (mapSet s.cache key data) h0)
          simpa [List.length_erase_of_mem hh0keys1] using h1
        rw [hlend, hlen1]
        simpa using hlen
      · rw [mapDelete_keys]
        exact hkeys1nd.erase h0
  · rw [addToCache_of_le s key data (not_lt.mp hbig)]
    refine ⟨⟨?_, ?_, ?_⟩, ?_⟩
    · rw [hfilter]
      simp only [List.nodup_append, List.nodup_singleton, true_and]
      refine ⟨hnd, ?_⟩
      intro a ha hb
      rw [List.mem_singleton] at hb
      exact hkH (hb ▸ ha)
    · intro k
      rw [hfilter, hkeys]
      simp only [List.mem_append, List.mem_singleton]
      exact or_congr_left (hiff k)
    · exact not_lt.mp hbig
    · exact hkeys1nd

/-- One fetchData call preserves the strengthened cache invariant. -/
theorem DMInv_fetchData (s : DataManager) (stationId : String) (year : Nat)
    (fetchResult : Option Dataset) (fileMode : Bool) (mock : Dataset)
    (h : DMInv s) :
    DMInv (fetchData s stationId year fetchResult fileMode mock).2 := by
  unfold fetchData
  by_cases hhit : mapHas s.cache (getKey stationId year) = true
  · rw [if_pos hhit]
    exact DMInv_updateAccess_of_has s _ hhit h
  · rw [if_neg hhit]
    rcases fetchResult with _ | data
    · rcases fileMode with _ | _ <;> exact h
    · exact DMInv_addToCache_of_not_has s _ data (by simpa using hhit) h

/-- Sequences of fetchData calls preserve the strengthened cache
invariant. -/
theorem DMInv_runCalls (calls : List FetchCall) (s : DataManager) (h : DMInv s) :
    DMInv (runCalls calls s) := by
  induction calls generalizing s with
  | nil => exact h
  | cons c rest ih =>
      exact ih _ (DMInv_fetchData s c.stationId c.year c.fetchResult c.fileMode c.mock h)

/-- The fresh DataManager satisfies the strengthened cache invariant. -/
theorem DMInv_init : DMInv DataManager.init := by
  refine ⟨⟨List.nodup_nil, ?_, ?_⟩, List.nodup_nil⟩
  · intro k
    simp [DataManager.init]
  · simp [DataManager.init, MAX_CACHE_SIZE]

end CacheLemmas

section ViewportLemmas

/-- Provided the dataset is at least minVisible days long, clampWindow
restores every viewport invariant as soon as the incoming visibleCount
is at least minVisible. -/
theorem viewInv_clampWindow (total : ℚ) (v : ChartRenderer)
    (htot : minVisible ≤ total) (hc : minVisible ≤ v.visibleCount) :
    viewInv total (clampWindow total v) := by
  have h14 : (0 : ℚ) < 14 := by norm_num
  simp only [minVisible] at htot hc
  simp only [clampWindow, viewInv, minVisible]
  split_ifs <;>
    exact ⟨by linarith, by linarith, by linarith, by linarith⟩

/-- Provided the dataset is at least minVisible days long, zoom
re-establishes every viewport invariant from any prior state. -/
theorem viewInv_zoom (total amount : ℚ) (v : ChartRenderer)
    (htot : minVisible ≤ total) : viewInv total (zoom total amount v) := by
  unfold zoom
  exact viewInv_clampWindow total _ htot (le_max_left _ _)

/-- Provided the dataset is at least minVisible days long, drag
preserves the viewport invariants. -/
theorem viewInv_drag (total dx barWidth : ℚ) (v : ChartRenderer)
    (htot : minVisible ≤ total) (h : viewInv total v) :
    viewInv total (drag total dx barWidth v) := by
  unfold drag
  exact viewInv_clampWindow total _ htot h.2.2.1

/-- Each pan or zoom operation preserves the viewport invariants when
the dataset is at least minVisible days long. -/
theorem viewInv_applyOp (total : ℚ) (op : Op) (v : ChartRenderer)
    (htot : minVisible ≤ total) (h : viewInv total v) :
    viewInv total (applyOp total op v) := by
  cases op with
  | pan dx barWidth => exact viewInv_drag total dx barWidth v htot h
  | zoomBy amount => exact viewInv_zoom total amount v htot

/-- Sequences of pan and zoom operations preserve the viewport
invariants when the dataset is at least minVisible days long. -/
theorem viewInv_applyOps (total : ℚ) (ops : List Op) (v : ChartRenderer)
    (htot : minVisible ≤ total) (h : viewInv total v) :
    viewInv total (applyOps total ops v) := by
  induction ops generalizing v with
  | nil => exact h
  | cons op rest ih =>
      exact ih (applyOp total op v) (viewInv_applyOp total op v htot h)

/-- Loading a dataset of length at least minVisible establishes the
viewport invariants. -/
theorem viewInv_setData (total : ℚ) (v : ChartRenderer)
    (htot : minVisible ≤ total) : viewInv total (setData total v) := by
  have h14 : (0 : ℚ) < 14 := by norm_num
  simp only [minVisible] at htot
  simp only [setData, viewInv, minVisible]
  exact ⟨le_refl 0, by linarith, htot, le_refl total⟩

end ViewportLemmas

/-- Once the loop index is positive, the draw color loop is exactly
the previous-midpoint comparison chain. -/
theorem markColorsAux_eq_colorsFrom (days : List (ℚ × ℚ)) (start : Nat) :
    ∀ (i : Nat) (prev : ℚ), 0 < i →
      markColorsAux start i prev days = colorsFrom prev days := by
  induction days with
  | nil => intro i prev _; rfl
  | cons d rest ih =>
      intro i prev hi
      simp only [markColorsAux, colorsFrom, if_pos (Or.inl hi)]
      rw [ih (i + 1) (midpoint d) (Nat.succ_pos i)]

/-- C1, as stated, is false: for a loaded 10-day dataset, after a
single pan operation (which ends with the clamp step) the viewport has
visibleCount = 10 < minVisible = 14, so the invariant
minVisible ≤ visibleCount ≤ total fails. -/
theorem c1_viewport_invariants_counterexample :
    ¬ viewInv 10 (applyOps 10 [Op.pan 0 1] (setData 10 ChartRenderer.init)) := by
  norm_num [viewInv, applyOps, applyOp, drag, setData, clampWindow,
    ChartRenderer.init, minVisible]

/-- C1 (amended): for every loaded dataset whose length total is at
least minVisible, after every finite sequence of pan and zoom
operations applied to the freshly loaded viewport, the viewport
satisfies 0 ≤ startIndex, startIndex + visibleCount ≤ total and
minVisible ≤ visibleCount ≤ total. -/
theorem c1_viewport_invariants (total : ℚ) (v : ChartRenderer) (ops : List Op)
    (htot : minVisible ≤ total) :
    viewInv total (applyOps total ops (setData total v)) :=
  viewInv_applyOps total ops (setData total v) htot (viewInv_setData total v htot)

/-- Witness for c1_viewport_invariants at a 365-day dataset and a
concrete pan and zoom sequence. -/
theorem c1_viewport_invariants_witness :
    minVisible ≤ (365 : ℚ) ∧
      viewInv 365 (applyOps 365 [Op.pan 100 2, Op.zoomBy 0.25]
        (setData 365 ChartRenderer.init)) :=
  ⟨by norm_num [minVisible],
    c1_viewport_invariants 365 ChartRenderer.init [Op.pan 100 2, Op.zoomBy 0.25]
      (by norm_num [minVisible])⟩

/-- C2: for a 365-day dataset, zooming by 0.5 from startIndex = 50,
visibleCount = 100 yields visibleCount = 50, keeps the window center
at the pre-zoom center 100 within the 0.01 tolerance, and puts
startIndex at 75 within the 0.01 tolerance. -/
theorem c2_zoom_center_preserving :
    (zoom 365 0.5 ⟨50, 100, none⟩).visibleCount = 50 ∧
      |((zoom 365 0.5 ⟨50, 100, none⟩).startIndex
          + (zoom 365 0.5 ⟨50, 100, none⟩).visibleCount * 0.5) - (50 + 100 * 0.5)|
        ≤ 0.01 ∧
      |(zoom 365 0.5 ⟨50, 100, none⟩).startIndex - 75| ≤ 0.01 := by
  norm_num [zoom, clampWindow, minVisible, max_def, min_def]

/-- C3, as stated, is false: on a loaded 10-day dataset, zooming in by
0.5 yields visibleCount = 10, which is below minVisible = 14, because
clampWindow caps visibleCount at the dataset length after zoom raised
it to minVisible. -/
theorem c3_zoom_count_counterexample :
    (zoom 10 0.5 (setData 10 ChartRenderer.init)).visibleCount < minVisible := by
  norm_num [zoom, setData, clampWindow, ChartRenderer.init, minVisible,
    max_def, min_def]

/-- C3 (amended): for every loaded dataset whose length total is at
least minVisible = 14, and every zoom amount however extreme, from any
viewport state the visibleCount produced by zoom lies in the interval
from minVisible to total. -/
theorem c3_zoom_count_bounded (total amount : ℚ) (v : ChartRenderer)
    (htot : minVisible ≤ total) :
    minVisible ≤ (zoom total amount v).visibleCount ∧
      (zoom total amount v).visibleCount ≤ total :=
  ⟨(viewInv_zoom total amount v htot).2.2.1, (viewInv_zoom total amount v htot).2.2.2⟩

/-- Witness for c3_zoom_count_bounded at a 365-day dataset and the
extreme amount 100. -/
theorem c3_zoom_count_bounded_witness :
    minVisible ≤ (365 : ℚ) ∧
      (minVisible ≤ (zoom 365 100 ⟨50, 100, none⟩).visibleCount ∧
        (zoom 365 100 ⟨50, 100, none⟩).visibleCount ≤ 365) :=
  ⟨by norm_num [minVisible],
    c3_zoom_count_bounded 365 100 ⟨50, 100, none⟩ (by norm_num [minVisible])⟩

/-- C7, as stated, is false: setData does not reset selectedIndex, so
loading a new dataset while day 3 is selected leaves day 3 selected. -/
theorem c7_selection_reset_counterexample :
    (setData 365 ⟨0, 365, some 3⟩).selectedIndex ≠ none := by
  simp [setData]

/-- C7 (amended): the selection is none initially (the constructor
leaves selectedIndex undefined), but loading a new dataset does not
clear it: setData preserves selectedIndex unchanged, and only an
explicit selection action (selectDay) changes it. -/
theorem c7_selection_initial_and_load :
    ChartRenderer.init.selectedIndex = none ∧
      (∀ (total : ℚ) (v : ChartRenderer),
        (setData total v).selectedIndex = v.selectedIndex) ∧
      (∀ (i : Nat) (v : ChartRenderer),
        (selectDay i v).selectedIndex = some i) :=
  ⟨rfl, fun _ _ => rfl, fun _ _ => rfl⟩

/-- C9: for every loaded dataset, pixel delta and bar width, a pan
operation on a viewport satisfying the section-3 invariants leaves
visibleCount and selectedIndex unchanged. -/
theorem c9_pan_frame (total dx barWidth : ℚ) (v : ChartRenderer)
    (h : viewInv total v) :
    (drag total dx barWidth v).visibleCount = v.visibleCount ∧
      (drag total dx barWidth v).selectedIndex = v.selectedIndex := by
  obtain ⟨h1, h2, h3, h4⟩ := h
  unfold drag clampWindow
  dsimp only
  rw [if_neg (not_lt.mpr h4)]
  exact ⟨rfl, rfl⟩

/-- Witness for c9_pan_frame: a 1000-pixel pan with day 3 selected
keeps visibleCount 365 and the selection. -/
theorem c9_pan_frame_witness :
    viewInv 365 ⟨0, 365, some 3⟩ ∧
      ((drag 365 1000 2 ⟨0, 365, some 3⟩).visibleCount = (365 : ℚ) ∧
        (drag 365 1000 2 ⟨0, 365, some 3⟩).selectedIndex = some 3) :=
  ⟨by norm_num [viewInv, minVisible],
    c9_pan_frame 365 1000 2 ⟨0, 365, some 3⟩ (by norm_num [viewInv, minVisible])⟩

/-- C8, as stated, is false: when the visible window starts at day 1,
the first rendered day of the slice does not get the neutral color; a
day with midpoint 10 is colored warm because the loop compares it
against the previous-midpoint seed 0. -/
theorem c8_trend_colors_counterexample :
    markColors 1 [(10, 10)] ≠ [TrendColor.neutral] ∧
      markColors 1 [(10, 10)] = [TrendColor.warm] := by
  have h : markColors 1 [(10, 10)] = [TrendColor.warm] := by
    norm_num [markColors, markColorsAux, midpoint]
  refine ⟨?_, h⟩
  rw [h]
  decide

/-- C8 (amended): in every render, each visible day after the first is
colored by comparing its midpoint (min+max)/2 with the previous
visible day's midpoint, colder-than-previous and
warmer-or-equal-than-previous getting the two distinct trend colors;
the first rendered day of the slice gets the neutral color exactly
when the window starts at day 0, and is otherwise colored by the same
comparison against a previous-midpoint seed of 0. -/
theorem c8_trend_colors (start : Nat) (viewData : List (ℚ × ℚ)) :
    markColors start viewData = trendColorRule start viewData := by
  cases viewData with
  | nil => rfl
  | cons d rest =>
      simp only [markColors, markColorsAux, trendColorRule]
      rw [markColorsAux_eq_colorsFrom rest start 1 (midpoint d) Nat.one_pos]
      rcases Nat.eq_zero_or_pos start with h | h
      · subst h
        simp
      · rw [if_pos (Or.inr h), if_neg (Nat.pos_iff_ne_zero.mp h)]

/-- C4: the capacity-3 cache evicts by least recent access.  First,
inserting four distinct keys from empty evicts exactly the first
inserted key.  Second, a hit on the first key before the fourth insert
refreshes its recency, so the second key, now least recently used, is
evicted instead.  Third, in general at most one key is evicted per
insert: any two keys present before an addToCache and absent after it
are equal. -/
theorem c4_lru_eviction :
    (lru4.cache.map Prod.fst = [key2, key3, key4] ∧
      lru4.accessHistory = [key2, key3, key4] ∧
      mapHas lru4.cache key1 = false) ∧
    (lru4Hit.cache.map Prod.fst = [key1, key3, key4] ∧
      lru4Hit.accessHistory = [key3, key1, key4] ∧
      mapHas lru4Hit.cache key2 = false ∧
      mapHas lru4Hit.cache key1 = true) ∧
    (∀ (s : DataManager) (key : Key) (data : Dataset) (k k3 : Key),
      mapHas s.cache k = true →
      mapHas (addToCache s key data).cache k = false →
      mapHas s.cache k3 = true →
      mapHas (addToCache s key data).cache k3 = false → k = k3) := by
  refine ⟨by decide, by decide, ?_⟩
  intro s key data k k3 hk1 hk2 hk31 hk32
  have e1 := evicted_eq_head s key data k hk1 hk2
  have e2 := evicted_eq_head s key data k3 hk31 hk32
  rw [← e2] at e1
  exact Option.some.inj e1

/-- Witness for c4_lru_eviction: at the fourth insert of the first
scenario the evicted key key1 coincides with itself. -/
theorem c4_lru_eviction_witness :
    mapHas lru3.cache key1 = true ∧
      mapHas (addToCache lru3 key4 d0).cache key1 = false ∧ key1 = key1 :=
  ⟨by decide, by decide,
    c4_lru_eviction.2.2 lru3 key4 d0 key1 key1 (by decide) (by decide)
      (by decide) (by decide)⟩

/-- C5: on a cache miss where the fetch fails and the offline/local
fallback does not apply, fetchData propagates the failure (returns no
dataset) and returns the DataManager state exactly as it was: nothing
stored, nothing evicted, no recency change. -/
theorem c5_failed_miss_uncached (s : DataManager) (stationId : String)
    (year : Nat) (mock : Dataset)
    (hmiss : mapHas s.cache (getKey stationId year) = false) :
    fetchData s stationId year none false mock = (none, s) := by
  simp [fetchData, hmiss]

/-- Witness for c5_failed_miss_uncached on the empty cache. -/
theorem c5_failed_miss_uncached_witness :
    mapHas DataManager.init.cache (getKey "108" 2025) = false ∧
      fetchData DataManager.init "108" 2025 none false d0 = (none, DataManager.init) :=
  ⟨rfl, c5_failed_miss_uncached DataManager.init "108" 2025 d0 rfl⟩

/-- C6, as stated, is false: when the fetch fails in offline/local
mode, fetchData returns the synthetic dataset without caching it — the
DataManager state is unchanged and the requested key is absent from
the cache after the call. -/
theorem c6_mock_cached_counterexample :
    (fetchData DataManager.init "108" 2025 none true d0).2 = DataManager.init ∧
      mapHas (fetchData DataManager.init "108" 2025 none true d0).2.cache
        (getKey "108" 2025) = false :=
  ⟨rfl, rfl⟩

/-- C6 (amended): on a cache miss in offline/local mode with the fetch
failing, fetchData returns the substitute mock dataset to the caller
but does not cache it: the cache and recency list are exactly as
before the call, and the key is still absent afterwards, so a
subsequent get for the same key misses again. -/
theorem c6_mock_not_cached (s : DataManager) (stationId : String) (year : Nat)
    (mock : Dataset)
    (hmiss : mapHas s.cache (getKey stationId year) = false) :
    fetchData s stationId year none true mock = (some mock, s) ∧
      mapHas (fetchData s stationId year none true mock).2.cache
        (getKey stationId year) = false := by
  have h : fetchData s stationId year none true mock = (some mock, s) := by
    simp [fetchData, hmiss]
  refine ⟨h, ?_⟩
  rw [h]
  exact hmiss

/-- Witness for c6_mock_not_cached on the empty cache. -/
theorem c6_mock_not_cached_witness :
    mapHas DataManager.init.cache (getKey "108" 2025) = false ∧
      (fetchData DataManager.init "108" 2025 none true d0
          = (some d0, DataManager.init) ∧
        mapHas (fetchData DataManager.init "108" 2025 none true d0).2.cache
          (getKey "108" 2025) = false) :=
  ⟨rfl, c6_mock_not_cached DataManager.init "108" 2025 d0 rfl⟩

/-- C10: after every sequence of fetchData calls (hits, successful
misses and failed misses) starting from the fresh DataManager, the
recency list holds each key at most once, its keys are exactly the
keys stored in the cache map, and the cache holds at most
MAX_CACHE_SIZE = 3 entries. -/
theorem c10_cache_bookkeeping (calls : List FetchCall) :
    cacheInv (runCalls calls DataManager.init) :=
  (DMInv_runCalls calls DataManager.init DMInv_init).1

end WeatherChart
